import Mathlib

/-!
Verification development for the Power BI dashboard viewer's client-side
presentation/caching subsystem: the rotation scheduler (`useAutoRotation`),
the activity detector (`useUserActivity`), the iframe preloader
(`useDashboardPreloader`) and the iframe connection pool (`useConnectionPool`).

Each definition is a shallow embedding of the corresponding TypeScript
function; timestamps are modelled as natural-number milliseconds, iframe
handles as natural-number identities, and the JS `Map` objects as
insertion-ordered association lists (the iteration order of a JS `Map` is
insertion order, and `set` of an existing key keeps its position).
-/

namespace PBIViewer

/-- Dashboard record as configured externally: `{id, name, url}`. -/
structure Dashboard where
  id : String
  name : String
  url : String
deriving DecidableEq, Repr

/-! ### Rotation scheduler (`useAutoRotation`)

State of the scheduler hook: `currentDashboardIndex`, `isRotating`,
`timeRemaining` (seconds). -/

/-- React state of `useAutoRotation`. -/
structure RotationState where
  currentDashboardIndex : Nat
  isRotating : Bool
  timeRemaining : Nat
deriving DecidableEq, Repr

/-- Embedding of `nextDashboard`: when the dashboard list is non-empty,
advance `currentDashboardIndex` to `(prev + 1) % dashboards.length` and reset
`timeRemaining` to `rotationIntervalSeconds`; otherwise do nothing.
`n` is `dashboards.length`, `interval` is `rotationIntervalSeconds`. -/
def nextDashboard (n interval : Nat) (s : RotationState) : RotationState :=
  if 0 < n then
    { s with currentDashboardIndex := (s.currentDashboardIndex + 1) % n,
             timeRemaining := interval }
  else s

/-- Embedding of the body of the 1-second `setInterval` callback installed
while `isRotating && !isUserActive && dashboards.length > 1`:
`setTimeRemaining(prev => { if (prev <= 1) { nextDashboard(); return interval }
return prev - 1 })`.  The call to `nextDashboard` advances the index and also
sets `timeRemaining` to the interval, then the updater returns the interval. -/
def countdownTick (n interval : Nat) (s : RotationState) : RotationState :=
  if s.timeRemaining ≤ 1 then
    { nextDashboard n interval s with timeRemaining := interval }
  else
    { s with timeRemaining := s.timeRemaining - 1 }

/-- Embedding of the index-bounds effect of `useAutoRotation`:
`if (currentDashboardIndex >= dashboards.length && dashboards.length > 0)
setCurrentDashboardIndex(0)`. Returns the index after the effect runs. -/
def indexBoundsGuard (n idx : Nat) : Nat :=
  if n ≤ idx ∧ 0 < n then 0 else idx

/-- Combined scheduler state including the activity input consumed by the
hook's effects. -/
structure SchedulerState where
  rot : RotationState
  isUserActive : Bool
deriving DecidableEq, Repr

/-- Events observed by the scheduler: a 1-second timer tick, or the
`isUserActive` input changing value. -/
inductive SchedEvent where
  | tick
  | setUserActive (b : Bool)
deriving DecidableEq, Repr

/-- One step of the scheduler.  A `tick` has an effect only while the
countdown interval is installed, i.e. while
`isRotating && !isUserActive && dashboards.length > 1` (otherwise the effect
cleanup has cleared the interval, pausing the countdown).  When
`isUserActive` becomes true while rotating, the dedicated effect
`if (isUserActive && isRotating) setTimeRemaining(rotationIntervalSeconds)`
resets the remaining time. -/
def schedStep (n interval : Nat) (s : SchedulerState) : SchedEvent → SchedulerState
  | .tick =>
    if s.rot.isRotating ∧ s.isUserActive = false ∧ 1 < n then
      { s with rot := countdownTick n interval s.rot }
    else s
  | .setUserActive b =>
    if b ∧ s.rot.isRotating then
      { isUserActive := b,
        rot := { s.rot with timeRemaining := interval } }
    else { s with isUserActive := b }

/-- Iterated idle ticks, as a plain function of the tick event. -/
def tickStep (n interval : Nat) (s : SchedulerState) : SchedulerState :=
  schedStep n interval s .tick

lemma tickStep_iter_idle (n interval : Nat) (hn : 1 < n) :
    ∀ (k tr idx : Nat), k < tr →
      (tickStep n interval)^[k] ⟨⟨idx, true, tr⟩, false⟩ = ⟨⟨idx, true, tr - k⟩, false⟩ := by
  intro k
  induction k with
  | zero => intro tr idx _; simp
  | succ k ih =>
    intro tr idx hk
    rw [Function.iterate_succ_apply]
    have hstep : tickStep n interval ⟨⟨idx, true, tr⟩, false⟩ = ⟨⟨idx, true, tr - 1⟩, false⟩ := by
      have htr : ¬ tr ≤ 1 := by omega
      simp [tickStep, schedStep, countdownTick, hn, htr]
    rw [hstep, ih (tr - 1) idx (by omega)]
    congr 2
    omega

lemma tickStep_noop_of_few (n interval : Nat) (hn : ¬ 1 < n) (s : SchedulerState) :
    tickStep n interval s = s := by
  simp [tickStep, schedStep, hn]

/-- C4: while Running and idle with more than one dashboard, each 1-second
tick decrements `timeRemaining`; the tick seeing `timeRemaining ≤ 1` instead
advances `currentDashboardIndex` to `(currentIndex+1) mod N` and resets
`timeRemaining` to the full interval; concretely, with `N = 3` and interval
5, five idle ticks advance the index exactly once and leave
`timeRemaining = 5`. -/
theorem claim_C4_scheduler_tick :
    (∀ (n interval : Nat) (s : RotationState), 1 < s.timeRemaining →
        countdownTick n interval s = { s with timeRemaining := s.timeRemaining - 1 }) ∧
    (∀ (n interval : Nat) (s : RotationState), s.timeRemaining ≤ 1 → 1 < n →
        countdownTick n interval s =
          { s with currentDashboardIndex := (s.currentDashboardIndex + 1) % n,
                   timeRemaining := interval }) ∧
    (∀ idx : Nat, idx < 3 →
        (countdownTick 3 5)^[5] ⟨idx, true, 5⟩ = ⟨(idx + 1) % 3, true, 5⟩) := by
  refine ⟨?_, ?_, ?_⟩
  · intro n interval s h
    have : ¬ s.timeRemaining ≤ 1 := by omega
    simp [countdownTick, this]
  · intro n interval s h hn
    have h0 : 0 < n := by omega
    simp [countdownTick, nextDashboard, h, h0]
  · intro idx hidx
    interval_cases idx <;> decide

/-- Closed instances of `claim_C4_scheduler_tick` at concrete inputs. -/
theorem claim_C4_witness :
    countdownTick 3 5 ⟨0, true, 5⟩ = ⟨0, true, 4⟩ ∧
    countdownTick 3 5 ⟨2, true, 1⟩ = ⟨0, true, 5⟩ ∧
    (countdownTick 3 5)^[5] ⟨1, true, 5⟩ = ⟨2, true, 5⟩ := by
  obtain ⟨h1, h2, h3⟩ := claim_C4_scheduler_tick
  exact ⟨h1 3 5 ⟨0, true, 5⟩ (by decide), h2 3 5 ⟨2, true, 1⟩ (by decide) (by decide),
    h3 1 (by decide)⟩

/-- C5 (counterexample): with an empty dashboard sequence and a previous
index of 2, the bounds guard leaves the index at 2, not 0 — the guard
`currentDashboardIndex >= dashboards.length && dashboards.length > 0` is
skipped when the length is 0, so the index does not stay 0 as claimed. -/
theorem claim_C5_counterexample :
    indexBoundsGuard 0 2 = 2 ∧ indexBoundsGuard 0 2 ≠ 0 := by decide

/-- C5 (amended): if the dashboard sequence is non-empty, the guard yields a
valid index (resetting an out-of-bounds index to 0); if the sequence is
empty the guard does not run and the index retains its previous value, and
no rotation occurs on an empty sequence (`nextDashboard` is a no-op). -/
theorem claim_C5_index_guard :
    (∀ n idx : Nat, 0 < n → indexBoundsGuard n idx < n) ∧
    (∀ idx : Nat, indexBoundsGuard 0 idx = idx) ∧
    (∀ (interval : Nat) (s : RotationState), nextDashboard 0 interval s = s) := by
  refine ⟨?_, ?_, ?_⟩
  · intro n idx h
    unfold indexBoundsGuard
    split <;> omega
  · intro idx
    unfold indexBoundsGuard
    split <;> omega
  · intro interval s
    simp [nextDashboard]

/-- Closed instances of `claim_C5_index_guard` at concrete inputs. -/
theorem claim_C5_witness :
    indexBoundsGuard 2 5 < 2 ∧ indexBoundsGuard 0 7 = 7 ∧
    nextDashboard 0 9 ⟨4, false, 3⟩ = ⟨4, false, 3⟩ :=
  ⟨claim_C5_index_guard.1 2 5 (by decide), claim_C5_index_guard.2.1 7,
    claim_C5_index_guard.2.2 9 ⟨4, false, 3⟩⟩

/-- C8: when `isUserActive` becomes true while Running, the countdown is
paused (ticks have no effect) while `isRotating` stays true and
`timeRemaining` resets to the full interval; after the user goes idle again,
fewer than `interval` ticks never advance the index, and the `interval`-th
idle tick advances it to `(currentIndex+1) mod N`. -/
theorem claim_C8_activity_pause (n interval : Nat) (s s1 s2 : SchedulerState)
    (hrot : s.rot.isRotating = true)
    (hs1 : s1 = schedStep n interval s (.setUserActive true))
    (hs2 : s2 = schedStep n interval s1 (.setUserActive false)) :
    s1.rot.isRotating = true ∧
    s1.isUserActive = true ∧
    s1.rot.timeRemaining = interval ∧
    s1.rot.currentDashboardIndex = s.rot.currentDashboardIndex ∧
    schedStep n interval s1 .tick = s1 ∧
    s2.rot.timeRemaining = interval ∧
    (∀ k, k < interval →
      ((tickStep n interval)^[k] s2).rot.currentDashboardIndex
        = s.rot.currentDashboardIndex) ∧
    (1 < n → 0 < interval →
      ((tickStep n interval)^[interval] s2).rot.currentDashboardIndex
        = (s.rot.currentDashboardIndex + 1) % n) := by
  obtain ⟨⟨idx, rotFlag, tr⟩, act⟩ := s
  simp only [RotationState.mk.injEq] at hrot ⊢
  subst hrot
  have hs1' : s1 = ⟨⟨idx, true, interval⟩, true⟩ := by
    simp [hs1, schedStep]
  have hs2' : s2 = ⟨⟨idx, true, interval⟩, false⟩ := by
    simp [hs2, hs1', schedStep]
  subst hs1' hs2'
  refine ⟨rfl, rfl, rfl, rfl, by simp [schedStep], rfl, ?_, ?_⟩
  · intro k hk
    by_cases hn : 1 < n
    · rw [tickStep_iter_idle n interval hn k interval idx hk]
    · have : ∀ m : Nat, (tickStep n interval)^[m] ⟨⟨idx, true, interval⟩, false⟩
          = ⟨⟨idx, true, interval⟩, false⟩ := by
        intro m
        induction m with
        | zero => simp
        | succ m ih => rw [Function.iterate_succ_apply, tickStep_noop_of_few n interval hn, ih]
      rw [this k]
  · intro hn hint
    obtain ⟨m, rfl⟩ : ∃ m, interval = m + 1 := ⟨interval - 1, by omega⟩
    rw [Function.iterate_succ_apply',
      tickStep_iter_idle n (m + 1) hn m (m + 1) idx (by omega)]
    have hm : m + 1 - m = 1 := by omega
    rw [hm]
    have h0 : 0 < n := by omega
    simp [tickStep, schedStep, countdownTick, nextDashboard, hn, h0]

/-- Closed instances of `claim_C8_activity_pause` at concrete inputs. -/
theorem claim_C8_witness :
    ((tickStep 3 5)^[3] ⟨⟨0, true, 5⟩, false⟩).rot.currentDashboardIndex = 0 ∧
    ((tickStep 3 5)^[5] ⟨⟨0, true, 5⟩, false⟩).rot.currentDashboardIndex = 1 := by
  have h := claim_C8_activity_pause 3 5 ⟨⟨0, true, 2⟩, false⟩ ⟨⟨0, true, 5⟩, true⟩
    ⟨⟨0, true, 5⟩, false⟩ rfl (by decide) (by decide)
  exact ⟨h.2.2.2.2.2.2.1 3 (by decide), h.2.2.2.2.2.2.2 (by decide) (by decide)⟩

/-- C10: calling `nextDashboard` while the dashboard list is empty is a
no-op: the whole scheduler state, in particular `currentDashboardIndex` and
`timeRemaining`, is unchanged. -/
theorem claim_C10_nextDashboard_empty_noop (interval : Nat) (s : RotationState) :
    nextDashboard 0 interval s = s := by
  simp [nextDashboard]

/-! ### Activity detector (`useUserActivity`)

The hook keeps `isActive` plus one pending `setTimeout`.  `resetTimeout`
(called once at construction, time 0, and on every qualifying input event)
sets `isActive = true`, cancels the pending timer, and schedules
`setIsActive(false)` at `now + timeoutMs`.  Only the most recent timer is
ever pending, so the detector's observable state is determined by the time
of the most recent reset. -/

/-- Internal state of the activity detector: the `isActive` flag and the
fire time of the single pending `setTimeout`. -/
structure DetectorState where
  isActive : Bool
  deadline : Nat
deriving DecidableEq, Repr

/-- Embedding of `resetTimeout`: sets `isActive` to true, clears the pending
timer and schedules the deactivation at `now + timeoutMs`.  The result does
not depend on the previous state because both fields are overwritten. -/
def resetTimeout (timeoutMs now : Nat) : DetectorState :=
  { isActive := true, deadline := now + timeoutMs }

/-- Observable `isActive` at time `t` with no further events: the pending
timer has fired iff `deadline ≤ t`, in which case `setIsActive(false)` has
run. -/
def detectorObserve (s : DetectorState) (t : Nat) : Bool :=
  if s.deadline ≤ t then false else s.isActive

/-- Run the detector over a (sorted ascending) list of qualifying-event
times and observe `isActive` at time `t`.  Each event at time `e ≤ t`
executes `resetTimeout` at time `e`; events after `t` have not happened
yet. -/
def detectorRun (timeoutMs : Nat) : List Nat → DetectorState → Nat → Bool
  | [], s, t => detectorObserve s t
  | e :: es, s, t =>
    if e ≤ t then detectorRun timeoutMs es (resetTimeout timeoutMs e) t
    else detectorObserve s t

/-- Observable `isActive` of `useUserActivity` at time `t`, given the
qualifying-event times `events` (construction at time 0 performs the initial
`resetTimeout`). -/
def isActiveAt (events : List Nat) (timeoutMs t : Nat) : Bool :=
  detectorRun timeoutMs events (resetTimeout timeoutMs 0) t

/-- Time of the last reset at or before `t` among the listed event times
(sorted ascending), if any. -/
def lastLe : List Nat → Nat → Option Nat
  | [], _ => none
  | e :: es, t =>
    if e ≤ t then
      match lastLe es t with
      | none => some e
      | some x => some x
    else none

lemma detectorObserve_reset (timeoutMs e t : Nat) :
    detectorObserve (resetTimeout timeoutMs e) t = decide (t < e + timeoutMs) := by
  by_cases h : e + timeoutMs ≤ t <;> simp [detectorObserve, resetTimeout, h] <;> omega

lemma detectorRun_eq_lastLe (timeoutMs : Nat) :
    ∀ (es : List Nat) (s : DetectorState) (t : Nat),
      detectorRun timeoutMs es s t =
        match lastLe es t with
        | none => detectorObserve s t
        | some e => decide (t < e + timeoutMs) := by
  intro es
  induction es with
  | nil => intro s t; rfl
  | cons e es ih =>
    intro s t
    by_cases he : e ≤ t
    · rw [detectorRun, if_pos he, ih]
      rcases h : lastLe es t with _ | x
      · simp [lastLe, he, h, detectorObserve_reset]
      · simp [lastLe, he, h]
    · rw [detectorRun, if_neg he]
      simp [lastLe, he]

lemma isActiveAt_eq_lastLe (events : List Nat) (timeoutMs t : Nat) :
    isActiveAt events timeoutMs t = decide (t < (lastLe events t).getD 0 + timeoutMs) := by
  rw [isActiveAt, detectorRun_eq_lastLe]
  rcases h : lastLe events t with _ | e
  · simp [h, detectorObserve_reset]
  · simp [h]

lemma lastLe_append_of_le (t : Nat) :
    ∀ (pre rest : List Nat) (e : Nat), (∀ x ∈ pre, x ≤ t) → lastLe rest t = some e →
      lastLe (pre ++ rest) t = some e := by
  intro pre
  induction pre with
  | nil => intro rest e _ h; simpa using h
  | cons p ps ih =>
    intro rest e hall hr
    have hp : p ≤ t := hall p (List.mem_cons_self p ps)
    have hrec := ih rest e (fun x hx => hall x (List.mem_cons_of_mem p hx)) hr
    simp only [List.cons_append, lastLe, if_pos hp, List.append_eq, hrec]

lemma isActiveAt_in_gap (events : List Nat) (timeoutMs : Nat) (pre suf : List Nat)
    (e e' t : Nat)
    (hsort : List.Pairwise (· < ·) (0 :: events))
    (hdec : 0 :: events = pre ++ e :: e' :: suf)
    (het : e ≤ t) (hte : t < e') :
    isActiveAt events timeoutMs t = decide (t < e + timeoutMs) := by
  rw [isActiveAt_eq_lastLe]
  suffices h : (lastLe events t).getD 0 = e by rw [h]
  have hte' : ¬ e' ≤ t := by omega
  rcases pre with _ | ⟨p0, pre'⟩
  · simp only [List.nil_append] at hdec
    injection hdec with h1 h2
    subst h2
    simp [lastLe, hte', ← h1]
  · injection hdec with h1 h2
    simp only [List.append_eq] at h2
    rw [h2] at hsort ⊢
    have hmid : lastLe (e :: e' :: suf) t = some e := by
      simp [lastLe, het, hte']
    have htail : List.Pairwise (· < ·) (pre' ++ e :: e' :: suf) :=
      (List.pairwise_cons.mp hsort).2
    have hpre : ∀ x ∈ pre', x ≤ t := by
      intro x hx
      have hlt : x < e :=
        (List.pairwise_append.mp htail).2.2 x hx e (List.mem_cons_self e (e' :: suf))
      omega
    rw [lastLe_append_of_le t pre' _ e hpre hmid]
    rfl

lemma lastLe_dense (timeoutMs : Nat) (ht0 : 0 < timeoutMs) :
    ∀ (es : List Nat) (base t : Nat), base ≤ t →
      List.Chain' (fun a b => b < a + timeoutMs) (base :: es) →
      t ≤ (base :: es).getLast (List.cons_ne_nil base es) →
      t < (lastLe es t).getD base + timeoutMs := by
  intro es
  induction es with
  | nil =>
    intro base t hbt _ hlast
    simp only [List.getLast_singleton] at hlast
    simp only [lastLe, Option.getD_none]
    omega
  | cons e es ih =>
    intro base t hbt hchain hlast
    by_cases he : e ≤ t
    · have hchain' : List.Chain' (fun a b => b < a + timeoutMs) (e :: es) :=
        hchain.tail
      have hlast' : t ≤ (e :: es).getLast (List.cons_ne_nil e es) := by
        rwa [List.getLast_cons_cons] at hlast
      have hrec := ih e t he hchain' hlast'
      have hg : (lastLe (e :: es) t).getD base = (lastLe es t).getD e := by
        rcases h : lastLe es t with _ | x <;> simp [lastLe, he, h]
      rw [hg]
      exact hrec
    · have hhead : e < base + timeoutMs := (List.chain'_cons.mp hchain).1
      have hnone : lastLe (e :: es) t = none := by simp [lastLe, he]
      rw [hnone]
      simp only [Option.getD_none]
      omega

/-- C9: for a strictly increasing sequence of qualifying-event times (with
construction at time 0): (a) when every consecutive gap is below
`timeoutMs`, `isActive` is true at every instant up to the last event;
(b) within a gap between consecutive events `e` and the next event `e'`
that exceeds `timeoutMs`, `isActive` is true exactly until `e + timeoutMs`
and false from then until `e'`, so it becomes false exactly once per such
gap (the unique falling edge is at `e + timeoutMs`). -/
theorem claim_C9_activity_detector (events : List Nat) (timeoutMs : Nat)
    (hsort : List.Pairwise (· < ·) (0 :: events)) (ht0 : 0 < timeoutMs) :
    (List.Chain' (fun a b => b < a + timeoutMs) (0 :: events) →
      ∀ t, t ≤ (0 :: events).getLast (List.cons_ne_nil 0 events) →
        isActiveAt events timeoutMs t = true) ∧
    (∀ (pre suf : List Nat) (e e' : Nat), 0 :: events = pre ++ e :: e' :: suf →
      e + timeoutMs < e' →
      (∀ t, e ≤ t → t < e' →
        isActiveAt events timeoutMs t = decide (t < e + timeoutMs)) ∧
      (∀ t, e ≤ t → t + 1 < e' →
        ((isActiveAt events timeoutMs t = true ∧
          isActiveAt events timeoutMs (t + 1) = false)
          ↔ t + 1 = e + timeoutMs))) := by
  constructor
  · intro hchain t hlast
    rw [isActiveAt_eq_lastLe]
    have := lastLe_dense timeoutMs ht0 events 0 t (Nat.zero_le t) hchain hlast
    simpa using this
  · intro pre suf e e' hdec hgap
    have hb1 : ∀ t, e ≤ t → t < e' →
        isActiveAt events timeoutMs t = decide (t < e + timeoutMs) := by
      intro t het hte
      exact isActiveAt_in_gap events timeoutMs pre suf e e' t hsort hdec het hte
    refine ⟨hb1, ?_⟩
    intro t het hte
    rw [hb1 t het (by omega), hb1 (t + 1) (by omega) (by omega)]
    simp only [decide_eq_true_eq, decide_eq_false_iff_not]
    omega

/-- Closed instances of `claim_C9_activity_detector` at concrete inputs:
events at 3 and 6 with timeout 5 keep the detector active through time 6;
events at 10 and 30 with timeout 5 give exactly one falling edge, at time
15, inside the long gap. -/
theorem claim_C9_witness :
    isActiveAt [3, 6] 5 6 = true ∧
    isActiveAt [10, 30] 5 12 = decide (12 < 10 + 5) ∧
    ((isActiveAt [10, 30] 5 14 = true ∧ isActiveAt [10, 30] 5 (14 + 1) = false)
      ↔ 14 + 1 = 10 + 5) := by
  have hA := (claim_C9_activity_detector [3, 6] 5 (by decide) (by decide)).1
    (by norm_num [List.chain'_cons]) 6 (by decide)
  have hB := (claim_C9_activity_detector [10, 30] 5 (by decide) (by decide)).2
    [0] [] 10 30 rfl (by decide)
  exact ⟨hA, hB.1 12 (by decide) (by decide), hB.2 14 (by decide) (by decide)⟩

/-! ### Connection pool (`useConnectionPool`)

The pool is a JS `Map` keyed by dashboard id, modelled as an
insertion-ordered association list; `poolSet` mirrors `Map.set` (update in
place if the key exists, else append), `poolDelete` mirrors `Map.delete`.
Iframe handles are `Nat` identities; timestamps are `Nat` milliseconds.
The outcome of an awaited `createPooledConnection` is passed in as
`created : Option (Nat × Nat)` — `some (iframe, loadTime)` when the iframe
signalled load, `none` when it signalled error or hit the 20 s timeout (the
code catches that rejection and logs it). -/

/-- Entry of the connection pool `Map`. -/
structure PooledConnection where
  id : String
  iframe : Nat
  isActive : Bool
  isLoaded : Bool
  lastUsed : Nat
  loadTime : Nat
deriving DecidableEq, Repr

/-- Lookup by dashboard id (`connectionPool.get`). -/
def poolGet (pool : List PooledConnection) (i : String) : Option PooledConnection :=
  pool.find? (fun c => c.id == i)

/-- Key-preserving insert (`Map.set`): replace the entry with the same id in
place, else append. -/
def poolSet : List PooledConnection → PooledConnection → List PooledConnection
  | [], c => [c]
  | x :: xs, c => if x.id == c.id then c :: xs else x :: poolSet xs c

/-- Removal by id (`Map.delete`). -/
def poolDelete (pool : List PooledConnection) (i : String) : List PooledConnection :=
  pool.filter (fun c => c.id != i)

/-- Embedding of a successful `createPooledConnection`: the connection
resolved after the load event, with `isActive: false, isLoaded: true,
lastUsed: new Date()`. -/
def createPooledConnection (d : Dashboard) (iframe loadTime now : Nat) : PooledConnection :=
  { id := d.id, iframe := iframe, isActive := false, isLoaded := true,
    lastUsed := now, loadTime := loadTime }

/-- Embedding of the LRU scan in `acquireConnection`'s pool-full branch:
`oldestTime` starts at `Date.now()` and only inactive connections with
`lastUsed` strictly below the running minimum are selected. -/
def findLRUConnection (pool : List PooledConnection) (now : Nat) :
    Option PooledConnection :=
  (pool.foldl
    (fun (acc : Option PooledConnection × Nat) conn =>
      if conn.isActive = false ∧ conn.lastUsed < acc.2
      then (some conn, conn.lastUsed) else acc)
    (none, now)).1

/-- Embedding of `acquireConnection`, run atomically (no interleaving with
other flows between its await points); returns the updated pool and the
handed-out iframe handle, `none` meaning the caller must fall back to an
uncached load.  Branches follow the source: unknown dashboard id returns
nothing; a pooled, loaded, inactive connection is marked active and reused;
otherwise with spare capacity a new connection is created (marked active);
otherwise the least-recently-used inactive connection is evicted and
replaced; if every connection is active, nothing is returned and the pool
is untouched.  A failed creation (`created = none`) returns nothing. -/
def acquireConnection (dashboards : List Dashboard) (maxConnections : Nat)
    (pool : List PooledConnection) (dashboardId : String)
    (created : Option (Nat × Nat)) (now : Nat) :
    List PooledConnection × Option Nat :=
  match dashboards.find? (fun d => d.id == dashboardId) with
  | none => (pool, none)
  | some dashboard =>
    match poolGet pool dashboardId with
    | some connection =>
      if connection.isLoaded = true ∧ connection.isActive = false then
        let conn := { connection with isActive := true, lastUsed := now }
        (poolSet pool conn, some conn.iframe)
      else (pool, none)
    | none =>
      if pool.length < maxConnections then
        match created with
        | some (h, lt) =>
          let conn := { createPooledConnection dashboard h lt now with isActive := true }
          (poolSet pool conn, some conn.iframe)
        | none => (pool, none)
      else
        match findLRUConnection pool now with
        | some lru =>
          let pool1 := poolDelete pool lru.id
          match created with
          | some (h, lt) =>
            let conn := { createPooledConnection dashboard h lt now with isActive := true }
            (poolSet pool1 conn, some conn.iframe)
          | none => (pool1, none)
        | none => (pool, none)

/-- Embedding of `releaseConnection`: mark the connection inactive and
refresh `lastUsed`; unknown ids are ignored. -/
def releaseConnection (pool : List PooledConnection) (dashboardId : String)
    (now : Nat) : List PooledConnection :=
  match poolGet pool dashboardId with
  | some connection =>
    poolSet pool { connection with isActive := false, lastUsed := now }
  | none => pool

/-- Embedding of the periodic 30 s cleanup: evict every inactive connection
whose idle duration exceeds `idleTimeoutMs`. -/
def sweepIdleConnections (pool : List PooledConnection) (idleTimeoutMs now : Nat) :
    List PooledConnection :=
  pool.filter (fun c => !(!c.isActive && decide (idleTimeoutMs < now - c.lastUsed)))

/-- Capacity test of `acquireConnection`'s creation path, evaluated on the
pool snapshot the flow captured: `!connectionPool.get(dashboardId) &&
connectionPool.size < maxConnections`.  In the source this snapshot is the
`connectionPool` closed over by the callback, read before the awaited
`createPooledConnection`. -/
def acquireCheckCapacity (snapshot : List PooledConnection) (maxConnections : Nat)
    (dashboardId : String) : Bool :=
  (poolGet snapshot dashboardId).isNone && decide (snapshot.length < maxConnections)

/-- Insertion performed after the awaited creation resolves:
`setConnectionPool(prev => new Map(prev).set(dashboardId, connection))`,
applied to the pool state current at that moment (which may differ from the
snapshot the capacity test used). -/
def acquireFinishCreate (pool : List PooledConnection) (d : Dashboard)
    (iframe loadTime now : Nat) : List PooledConnection :=
  poolSet pool { createPooledConnection d iframe loadTime now with isActive := true }

lemma poolGet_poolSet_self (p : List PooledConnection) (c : PooledConnection) :
    poolGet (poolSet p c) c.id = some c := by
  induction p with
  | nil => simp [poolGet, poolSet, List.find?]
  | cons x xs ih =>
    by_cases hx : x.id = c.id
    · simp [poolGet, poolSet, List.find?, hx]
    · have hx' : (x.id == c.id) = false := beq_eq_false_iff_ne.mpr hx
      simp only [poolSet, hx', Bool.false_eq_true, if_false]
      simpa [poolGet, List.find?, hx'] using ih

lemma poolSet_length_of_isSome (p : List PooledConnection) (c : PooledConnection)
    (h : (poolGet p c.id).isSome) : (poolSet p c).length = p.length := by
  induction p with
  | nil => simp [poolGet] at h
  | cons x xs ih =>
    by_cases hx : x.id = c.id
    · simp [poolSet, hx]
    · have hx' : (x.id == c.id) = false := beq_eq_false_iff_ne.mpr hx
      simp only [poolGet, List.find?, hx'] at h
      simp only [poolSet, hx', Bool.false_eq_true, if_false, List.length_cons]
      rw [ih h]

lemma poolSet_length_of_none (p : List PooledConnection) (c : PooledConnection)
    (h : poolGet p c.id = none) : (poolSet p c).length = p.length + 1 := by
  induction p with
  | nil => simp [poolSet]
  | cons x xs ih =>
    by_cases hx : x.id = c.id
    · simp [poolGet, List.find?, hx] at h
    · have hx' : (x.id == c.id) = false := beq_eq_false_iff_ne.mpr hx
      simp only [poolGet, List.find?, hx'] at h
      simp only [poolSet, hx', Bool.false_eq_true, if_false, List.length_cons]
      rw [ih h]

lemma poolSet_length_le (p : List PooledConnection) (c : PooledConnection) :
    (poolSet p c).length ≤ p.length + 1 := by
  rcases h : poolGet p c.id with _ | x
  · rw [poolSet_length_of_none p c h]
  · rw [poolSet_length_of_isSome p c (by rw [h]; rfl)]
    omega

lemma findLRUConnection_mem (p : List PooledConnection) (now : Nat)
    (c : PooledConnection) (h : findLRUConnection p now = some c) : c ∈ p := by
  have key : ∀ (l : List PooledConnection) (acc : Option PooledConnection × Nat),
      (l.foldl
        (fun (acc : Option PooledConnection × Nat) conn =>
          if conn.isActive = false ∧ conn.lastUsed < acc.2
          then (some conn, conn.lastUsed) else acc) acc).1 = acc.1 ∨
      ∃ x ∈ l, (l.foldl
        (fun (acc : Option PooledConnection × Nat) conn =>
          if conn.isActive = false ∧ conn.lastUsed < acc.2
          then (some conn, conn.lastUsed) else acc) acc).1 = some x := by
    intro l
    induction l with
    | nil => intro acc; exact Or.inl rfl
    | cons x xs ih =>
      intro acc
      rcases ih (if x.isActive = false ∧ x.lastUsed < acc.2
          then (some x, x.lastUsed) else acc) with h1 | ⟨y, hy, h2⟩
      · simp only [List.foldl_cons]
        rw [h1]
        by_cases hc : x.isActive = false ∧ x.lastUsed < acc.2
        · exact Or.inr ⟨x, List.mem_cons_self x xs, by rw [if_pos hc]⟩
        · exact Or.inl (by rw [if_neg hc])
      · exact Or.inr ⟨y, List.mem_cons_of_mem x hy, by simpa using h2⟩
  rcases key p (none, now) with h1 | ⟨y, hy, h2⟩
  · rw [findLRUConnection] at h
    rw [h1] at h
    exact absurd h (by simp)
  · rw [findLRUConnection] at h
    rw [h2] at h
    exact (Option.some.injEq _ _ ▸ h : y = c) ▸ hy

lemma findLRUConnection_none_of_all_active (p : List PooledConnection) (now : Nat)
    (h : ∀ c ∈ p, c.isActive = true) : findLRUConnection p now = none := by
  have key : ∀ (l : List PooledConnection) (acc : Option PooledConnection × Nat),
      (∀ c ∈ l, c.isActive = true) →
      l.foldl
        (fun (acc : Option PooledConnection × Nat) conn =>
          if conn.isActive = false ∧ conn.lastUsed < acc.2
          then (some conn, conn.lastUsed) else acc) acc = acc := by
    intro l
    induction l with
    | nil => intro acc _; rfl
    | cons x xs ih =>
      intro acc hall
      have hx : x.isActive = true := hall x (List.mem_cons_self x xs)
      have hc : ¬ (x.isActive = false ∧ x.lastUsed < acc.2) := by simp [hx]
      simp only [List.foldl_cons, if_neg hc]
      exact ih acc (fun c hc' => hall c (List.mem_cons_of_mem x hc'))
  rw [findLRUConnection, key p (none, now) h]

lemma poolDelete_length_lt (p : List PooledConnection) (c : PooledConnection)
    (hc : c ∈ p) : (poolDelete p c.id).length < p.length := by
  induction p with
  | nil => cases hc
  | cons x xs ih =>
    have hle := List.length_filter_le (fun c0 => c0.id != c.id) xs
    rcases List.mem_cons.mp hc with rfl | hmem
    · have h0 : (c.id != c.id) = false := by simp
      simp only [poolDelete, List.filter_cons, h0, Bool.false_eq_true, if_false,
        List.length_cons]
      omega
    · by_cases hx : (x.id != c.id) = true
      · have := ih hmem
        simp only [poolDelete] at this
        simp only [poolDelete, List.filter_cons, hx, if_true, List.length_cons]
        omega
      · have hx' : (x.id != c.id) = false := by
          revert hx
          cases x.id != c.id <;> simp
        simp only [poolDelete, List.filter_cons, hx', Bool.false_eq_true, if_false,
          List.length_cons]
        omega

lemma poolGet_some_id (p : List PooledConnection) (i : String) (c : PooledConnection)
    (h : poolGet p i = some c) : c.id = i := by
  rw [poolGet] at h
  have := List.find?_some h
  simpa [beq_iff_eq] using this

lemma acquireConnection_length (dashboards : List Dashboard) (maxConnections : Nat)
    (pool : List PooledConnection) (dashboardId : String)
    (created : Option (Nat × Nat)) (now : Nat)
    (hlen : pool.length ≤ maxConnections) :
    (acquireConnection dashboards maxConnections pool dashboardId created now).1.length
      ≤ maxConnections := by
  rw [acquireConnection]
  split
  · exact hlen
  · rename_i dashboard hfind
    have hdid : dashboard.id = dashboardId := by
      have := List.find?_some hfind
      simpa [beq_iff_eq] using this
    split
    · rename_i connection hget
      split
      · have hcid : connection.id = dashboardId :=
          poolGet_some_id pool dashboardId connection hget
        show (poolSet pool { connection with isActive := true, lastUsed := now }).length
          ≤ maxConnections
        rw [poolSet_length_of_isSome pool _
          (by simpa [hcid] using congrArg Option.isSome hget)]
        exact hlen
      · exact hlen
    · rename_i hget
      split
      · rename_i hcap
        rcases created with _ | ⟨h, lt⟩
        · exact hlen
        · show (poolSet pool
              { createPooledConnection dashboard h lt now with isActive := true }).length
            ≤ maxConnections
          rw [poolSet_length_of_none pool _
            (by simpa [createPooledConnection, hdid] using hget)]
          omega
      · split
        · rename_i lru hlru
          have hmem := findLRUConnection_mem pool now lru hlru
          have hdel := poolDelete_length_lt pool lru hmem
          rcases created with _ | ⟨h, lt⟩
          · show (poolDelete pool lru.id).length ≤ maxConnections
            omega
          · show (poolSet (poolDelete pool lru.id)
                { createPooledConnection dashboard h lt now with isActive := true }).length
              ≤ maxConnections
            have := poolSet_length_le (poolDelete pool lru.id)
              { createPooledConnection dashboard h lt now with isActive := true }
            omega
        · exact hlen

lemma releaseConnection_length (pool : List PooledConnection) (dashboardId : String)
    (now : Nat) : (releaseConnection pool dashboardId now).length = pool.length := by
  rw [releaseConnection]
  split
  · rename_i connection hget
    have hcid : connection.id = dashboardId :=
      poolGet_some_id pool dashboardId connection hget
    exact poolSet_length_of_isSome pool _
      (by simpa [hcid] using congrArg Option.isSome hget)
  · rfl

/-- Possible pool operations other than the warm-up loop, each run
atomically (run to completion with no interleaved flow). -/
inductive PoolOp where
  | acquire (dashboardId : String) (created : Option (Nat × Nat)) (now : Nat)
  | release (dashboardId : String) (now : Nat)
  | sweep (now : Nat)

/-- Apply one pool operation atomically. -/
def applyPoolOp (dashboards : List Dashboard) (maxConnections idleTimeoutMs : Nat)
    (pool : List PooledConnection) : PoolOp → List PooledConnection
  | .acquire i created now => (acquireConnection dashboards maxConnections pool i created now).1
  | .release i now => releaseConnection pool i now
  | .sweep now => sweepIdleConnections pool idleTimeoutMs now

/-- Run a sequence of atomic pool operations. -/
def runPoolOps (dashboards : List Dashboard) (maxConnections idleTimeoutMs : Nat)
    (pool : List PooledConnection) (ops : List PoolOp) : List PooledConnection :=
  ops.foldl (applyPoolOp dashboards maxConnections idleTimeoutMs) pool

lemma applyPoolOp_length (dashboards : List Dashboard)
    (maxConnections idleTimeoutMs : Nat) (pool : List PooledConnection) (op : PoolOp)
    (h : pool.length ≤ maxConnections) :
    (applyPoolOp dashboards maxConnections idleTimeoutMs pool op).length
      ≤ maxConnections := by
  cases op with
  | acquire i created now => exact acquireConnection_length _ _ _ _ _ _ h
  | release i now => rw [applyPoolOp, releaseConnection_length]; exact h
  | sweep now =>
    have := List.length_filter_le
      (fun c : PooledConnection => !(!c.isActive && decide (idleTimeoutMs < now - c.lastUsed)))
      pool
    simp only [applyPoolOp, sweepIdleConnections]
    omega

/-- C1 (counterexample): the capacity decision of `acquireConnection`'s
creation path is evaluated on the pool snapshot captured before the awaited
creation, not on the latest state.  With `maxConnections = 1` and an empty
pool, two interleaved acquisitions for distinct ids both pass the capacity
check on the same (empty) snapshot before either insert runs; after both
awaited creations resolve and both inserts are applied, the pool holds 2
connections, exceeding `maxConnections` — refuting the claimed invariant. -/
theorem claim_C1_counterexample :
    acquireCheckCapacity [] 1 "a" = true ∧
    acquireCheckCapacity [] 1 "b" = true ∧
    1 < (acquireFinishCreate (acquireFinishCreate [] ⟨"a", "A", "urlA"⟩ 10 5 100)
          ⟨"b", "B", "urlB"⟩ 11 6 101).length := by
  decide

/-- C1 (amended): each insert, evict and mark-active is applied functionally
to the latest pool state, and any sequence of acquire / release / sweep
operations each run atomically (without interleaving at await points)
preserves the capacity bound `size ≤ maxConnections`; but the capacity check
itself reads the snapshot captured before the awaited creation, so
interleaved acquisitions can exceed `maxConnections`
(see the counterexample). -/
theorem claim_C1_sequential_capacity (dashboards : List Dashboard)
    (maxConnections idleTimeoutMs : Nat) (pool : List PooledConnection)
    (ops : List PoolOp) (h : pool.length ≤ maxConnections) :
    (runPoolOps dashboards maxConnections idleTimeoutMs pool ops).length
      ≤ maxConnections := by
  induction ops generalizing pool with
  | nil => exact h
  | cons op ops ih =>
    exact ih _ (applyPoolOp_length dashboards maxConnections idleTimeoutMs pool op h)

/-- Closed instance of `claim_C1_sequential_capacity` on a concrete
operation sequence that exercises reuse, release, LRU replacement and the
sweep. -/
theorem claim_C1_witness :
    (runPoolOps [⟨"a", "A", "u"⟩, ⟨"b", "B", "v"⟩] 1 1000 []
      [.acquire "a" (some (7, 3)) 10, .release "a" 20,
       .acquire "b" (some (8, 4)) 30, .sweep 4000]).length ≤ 1 :=
  claim_C1_sequential_capacity _ 1 1000 [] _ (by decide)

/-- C7: if the pool is at capacity and every pooled connection is active,
`acquireConnection` for an id not in the pool returns the absence value and
leaves the pool untouched (no eviction); and whenever the awaited creation
fails during acquisition, the result is the absence value (the rejection is
caught and logged — the embedding is a total function returning `none`, not
a thrown failure). -/
theorem claim_C7_full_active_and_failure (dashboards : List Dashboard)
    (maxConnections : Nat) (pool : List PooledConnection) (dashboardId : String)
    (created : Option (Nat × Nat)) (now : Nat) (d : Dashboard)
    (hdash : dashboards.find? (fun d0 => d0.id == dashboardId) = some d)
    (hmiss : poolGet pool dashboardId = none) :
    (maxConnections ≤ pool.length → (∀ c ∈ pool, c.isActive = true) →
      acquireConnection dashboards maxConnections pool dashboardId created now
        = (pool, none)) ∧
    (created = none →
      (acquireConnection dashboards maxConnections pool dashboardId created now).2
        = none) := by
  constructor
  · intro hfull hall
    have hlru := findLRUConnection_none_of_all_active pool now hall
    simp only [acquireConnection, hdash, hmiss]
    rw [if_neg (by omega), hlru]
  · intro hc
    subst hc
    simp only [acquireConnection, hdash, hmiss]
    by_cases hcap : pool.length < maxConnections
    · rw [if_pos hcap]
    · rw [if_neg hcap]
      rcases hlru : findLRUConnection pool now with _ | lru <;> simp [hlru]

/-- Closed instance of `claim_C7_full_active_and_failure`: a pool of
capacity 1 holding one active connection for `"b"`; acquiring `"a"` returns
nothing and evicts nothing, and with a failing creation the result is
nothing. -/
theorem claim_C7_witness :
    acquireConnection [⟨"a", "A", "u"⟩, ⟨"b", "B", "v"⟩] 1
        [⟨"b", 5, true, true, 50, 10⟩] "a" none 100
      = ([⟨"b", 5, true, true, 50, 10⟩], none) ∧
    (acquireConnection [⟨"a", "A", "u"⟩, ⟨"b", "B", "v"⟩] 1
        [⟨"b", 5, true, true, 50, 10⟩] "a" none 100).2 = none := by
  have h := claim_C7_full_active_and_failure [⟨"a", "A", "u"⟩, ⟨"b", "B", "v"⟩] 1
    [⟨"b", 5, true, true, 50, 10⟩] "a" none 100 ⟨"a", "A", "u"⟩ (by decide) (by decide)
  exact ⟨h.1 (by decide) (by decide), h.2 rfl⟩

lemma acquire_some_shape (dashboards : List Dashboard) (maxConnections : Nat)
    (pool p1 : List PooledConnection) (dashboardId : String)
    (created : Option (Nat × Nat)) (now : Nat) (h : Nat)
    (hacq : acquireConnection dashboards maxConnections pool dashboardId created now
      = (p1, some h)) :
    (∃ d, dashboards.find? (fun d0 => d0.id == dashboardId) = some d) ∧
    ∃ (base : List PooledConnection) (c : PooledConnection),
      p1 = poolSet base c ∧ c.id = dashboardId ∧ c.isActive = true ∧
      c.isLoaded = true ∧ c.iframe = h := by
  rw [acquireConnection] at hacq
  split at hacq
  · exact absurd (congrArg Prod.snd hacq) (by simp)
  · rename_i dashboard hfind
    have hdid : dashboard.id = dashboardId := by
      have := List.find?_some hfind
      simpa [beq_iff_eq] using this
    refine ⟨⟨dashboard, hfind⟩, ?_⟩
    split at hacq
    · rename_i connection hget
      split at hacq
      · rename_i hcond
        have hp := congrArg Prod.fst hacq
        have hh := congrArg Prod.snd hacq
        simp only at hp hh
        exact ⟨pool, { connection with isActive := true, lastUsed := now }, hp.symm,
          poolGet_some_id pool dashboardId connection hget, rfl, hcond.1,
          Option.some.inj hh⟩
      · exact absurd (congrArg Prod.snd hacq) (by simp)
    · rename_i hget
      split at hacq
      · rcases created with _ | ⟨h0, lt⟩
        · exact absurd (congrArg Prod.snd hacq) (by simp)
        · have hp := congrArg Prod.fst hacq
          have hh := congrArg Prod.snd hacq
          simp only at hp hh
          exact ⟨pool, { createPooledConnection dashboard h0 lt now with isActive := true },
            hp.symm, hdid, rfl, rfl, Option.some.inj hh⟩
      · split at hacq
        · rename_i lru hlru
          rcases created with _ | ⟨h0, lt⟩
          · exact absurd (congrArg Prod.snd hacq) (by simp)
          · have hp := congrArg Prod.fst hacq
            have hh := congrArg Prod.snd hacq
            simp only at hp hh
            exact ⟨poolDelete pool lru.id,
              { createPooledConnection dashboard h0 lt now with isActive := true },
              hp.symm, hdid, rfl, rfl, Option.some.inj hh⟩
        · exact absurd (congrArg Prod.snd hacq) (by simp)

/-- C6 (counterexample): the round trip fails for a pool state at capacity
with every connection active: with `maxConnections = 1` and an active
connection for `"b"`, `acquireConnection("a")` returns nothing, the
following `releaseConnection("a")` is a no-op, and no pooled entry for
`"a"` exists — refuting the claim for arbitrary pool states. -/
theorem claim_C6_counterexample :
    poolGet
      (releaseConnection
        (acquireConnection [⟨"a", "A", "u"⟩, ⟨"b", "B", "v"⟩] 1
          [⟨"b", 5, true, true, 50, 10⟩] "a" (some (9, 2)) 100).1
        "a" 101)
      "a" = none := by
  decide

/-- C6 (amended): provided `acquireConnection(id)` actually hands out a
handle (the id is pooled and reusable, or the creation succeeds — if the
pool is full with every connection active, or the creation fails, the
acquisition returns nothing and no entry for the id exists, see the
counterexample), an immediate `releaseConnection(id)` leaves a pooled,
inactive, loaded entry for the id whose `lastUsed` is the release time, and
a subsequent `acquireConnection(id)` returns the same iframe handle — even
with a failing creation oracle, showing no new connection is created. -/
theorem claim_C6_roundtrip (dashboards : List Dashboard) (maxConnections : Nat)
    (pool p1 : List PooledConnection) (dashboardId : String)
    (created : Option (Nat × Nat)) (t1 t2 t3 : Nat) (h : Nat)
    (hacq : acquireConnection dashboards maxConnections pool dashboardId created t1
      = (p1, some h)) :
    ∃ c : PooledConnection,
      poolGet (releaseConnection p1 dashboardId t2) dashboardId = some c ∧
      c.isActive = false ∧ c.isLoaded = true ∧ c.lastUsed = t2 ∧ c.iframe = h ∧
      ∀ created' : Option (Nat × Nat),
        (acquireConnection dashboards maxConnections
          (releaseConnection p1 dashboardId t2) dashboardId created' t3).2 = some h := by
  obtain ⟨⟨d, hfind⟩, base, c0, hp1, hcid, hact, hload, hif⟩ :=
    acquire_some_shape dashboards maxConnections pool p1 dashboardId created t1 h hacq
  have hget1 : poolGet p1 dashboardId = some c0 := by
    rw [hp1, ← hcid]
    exact poolGet_poolSet_self base c0
  have hrel : releaseConnection p1 dashboardId t2
      = poolSet p1 { c0 with isActive := false, lastUsed := t2 } := by
    rw [releaseConnection, hget1]
  have hget2 : poolGet (releaseConnection p1 dashboardId t2) dashboardId
      = some { c0 with isActive := false, lastUsed := t2 } := by
    rw [hrel, ← hcid]
    exact poolGet_poolSet_self p1 { c0 with isActive := false, lastUsed := t2 }
  refine ⟨{ c0 with isActive := false, lastUsed := t2 }, hget2, rfl, hload, rfl, hif, ?_⟩
  intro created'
  simp only [acquireConnection, hfind, hget2]
  rw [if_pos ⟨hload, trivial⟩]
  simpa using hif

/-- Closed instance of `claim_C6_roundtrip`: acquiring `"a"` (freshly
created with handle 7), releasing it, then acquiring it again with a
failing creation oracle still returns handle 7 from the pool. -/
theorem claim_C6_witness :
    (acquireConnection [⟨"a", "A", "u"⟩] 1
      (releaseConnection [⟨"a", 7, true, true, 10, 3⟩] "a" 11) "a" none 12).2
      = some 7 := by
  obtain ⟨c, -, -, -, -, -, hsub⟩ := claim_C6_roundtrip [⟨"a", "A", "u"⟩] 1 []
    [⟨"a", 7, true, true, 10, 3⟩] "a" (some (7, 3)) 10 11 12 7 (by decide)
  exact hsub none

/-! ### Iframe preloader (`useDashboardPreloader`)

The preload cache is a JS `Map` keyed by dashboard id, modelled like the
pool as an insertion-ordered association list. -/

/-- Entry of the preload cache `Map`. -/
structure PreloadedDashboard where
  id : String
  iframe : Nat
  isLoaded : Bool
  loadTime : Nat
  lastUsed : Nat
deriving DecidableEq, Repr

/-- Lookup by dashboard id (`preloadedDashboards.get`). -/
def preGet (cache : List PreloadedDashboard) (i : String) : Option PreloadedDashboard :=
  cache.find? (fun e => e.id == i)

/-- Key-preserving insert (`Map.set`). -/
def preSet : List PreloadedDashboard → PreloadedDashboard → List PreloadedDashboard
  | [], e => [e]
  | x :: xs, e => if x.id == e.id then e :: xs else x :: preSet xs e

/-- Removal by id (`Map.delete`). -/
def preDelete (cache : List PreloadedDashboard) (i : String) : List PreloadedDashboard :=
  cache.filter (fun e => e.id != i)

/-- Embedding of the oldest-entry scan in `preloadDashboard`: `oldestId`
starts as the empty string and `oldestTime` as `Date.now()`; only entries
with `lastUsed` strictly below the running minimum are selected. -/
def findOldestPreloaded (cache : List PreloadedDashboard) (now : Nat) : String × Nat :=
  cache.foldl
    (fun (acc : String × Nat) e => if e.lastUsed < acc.2 then (e.id, e.lastUsed) else acc)
    ("", now)

/-- Embedding of the `setPreloadedDashboards` updater run when a preload
attempt resolves successfully: if the cache is at or above
`maxPreloadedDashboards`, evict the scanned oldest entry (guarded by the JS
truthiness test `if (oldestId)`, which fails for the empty string), then
insert the new entry with `isLoaded: true, loadTime: Date.now(),
lastUsed: new Date()`. -/
def preloadSuccessInsert (maxPreloadedDashboards : Nat)
    (cache : List PreloadedDashboard) (d : Dashboard) (iframe now : Nat) :
    List PreloadedDashboard :=
  preSet
    (if maxPreloadedDashboards ≤ cache.length then
       if (findOldestPreloaded cache now).1 ≠ "" then
         preDelete cache (findOldestPreloaded cache now).1
       else cache
     else cache)
    { id := d.id, iframe := iframe, isLoaded := true, loadTime := now, lastUsed := now }

/-- Settlement state of the promise returned by `createPreloadedIframe`. -/
inductive PromiseState where
  | pending
  | resolvedWith (iframe : Nat)
  | rejected
deriving DecidableEq, Repr

/-- Observable state of one preload attempt: the created iframe handle, the
promise, whether the load/error listeners are still attached, whether the
20-second timeout is still armed, and whether the iframe is parented in the
hidden preload container. -/
structure PreloadAttempt where
  iframe : Nat
  promise : PromiseState
  listenersAttached : Bool
  timeoutArmed : Bool
  inContainer : Bool
deriving DecidableEq, Repr

/-- State of an attempt right after `createPreloadedIframe` runs its
synchronous part: iframe created with src set, timeout armed, load/error
listeners attached, iframe appended to the hidden container. -/
def initialPreloadAttempt (iframe : Nat) : PreloadAttempt :=
  { iframe := iframe, promise := .pending, listenersAttached := true,
    timeoutArmed := true, inContainer := true }

/-- Events that can settle a preload attempt. -/
inductive PreloadEvent where
  | timeoutFires
  | loadFires
  | errorFires
deriving DecidableEq, Repr

/-- One event of a preload attempt, following `createPreloadedIframe`: the
timeout handler only calls `reject` (it removes neither the listeners nor
the iframe from the container); `handleLoad` clears the timeout, removes
both listeners and resolves with the iframe; `handleError` clears the
timeout, removes both listeners and rejects.  Settling an already-settled
promise is a no-op (JS promise semantics), and a handler only runs if its
listener is still attached (respectively if the timeout is still armed). -/
def stepPreloadAttempt (s : PreloadAttempt) : PreloadEvent → PreloadAttempt
  | .timeoutFires =>
    if s.timeoutArmed then
      { s with timeoutArmed := false,
               promise := match s.promise with
                 | .pending => .rejected
                 | p => p }
    else s
  | .loadFires =>
    if s.listenersAttached then
      { s with timeoutArmed := false, listenersAttached := false,
               promise := match s.promise with
                 | .pending => .resolvedWith s.iframe
                 | p => p }
    else s
  | .errorFires =>
    if s.listenersAttached then
      { s with timeoutArmed := false, listenersAttached := false,
               promise := match s.promise with
                 | .pending => .rejected
                 | p => p }
    else s

/-- Effect of an attempt's settlement on the preload cache, following
`preloadDashboard`: a resolved promise inserts (with capacity eviction); a
rejection is caught, logged and records nothing. -/
def preloadAttemptCacheEffect (maxPreloadedDashboards : Nat) (d : Dashboard)
    (now : Nat) (s : PreloadAttempt) (cache : List PreloadedDashboard) :
    List PreloadedDashboard :=
  match s.promise with
  | .resolvedWith h => preloadSuccessInsert maxPreloadedDashboards cache d h now
  | _ => cache

/-- C3 (counterexample): after the preload timeout fires, the iframe handle
is still parented in the hidden container — the timeout handler only
rejects the promise and removes nothing from the DOM — and it remains there
even after a late load event, contradicting the claim that the handle is
removed from the DOM on timeout. -/
theorem claim_C3_counterexample :
    (stepPreloadAttempt (initialPreloadAttempt 7) .timeoutFires).inContainer = true ∧
    (stepPreloadAttempt (stepPreloadAttempt (initialPreloadAttempt 7) .timeoutFires)
        .loadFires).inContainer = true := by
  decide

/-- C3 (amended): when the timeout fires before any load or error signal,
the attempt is rejected, so no cache entry is recorded and a load event
arriving after the timeout has no observable effect on the cache (the
promise is already settled); however the iframe handle is not removed from
the DOM — it stays parented in the hidden container (only container
teardown removes it), with the load/error listeners still attached until a
late event fires. -/
theorem claim_C3_timeout_discard (iframe : Nat) (maxPreloadedDashboards : Nat)
    (d : Dashboard) (now : Nat) (cache : List PreloadedDashboard) :
    (stepPreloadAttempt (initialPreloadAttempt iframe) .timeoutFires).promise
      = .rejected ∧
    (stepPreloadAttempt (stepPreloadAttempt (initialPreloadAttempt iframe) .timeoutFires)
        .loadFires).promise = .rejected ∧
    preloadAttemptCacheEffect maxPreloadedDashboards d now
      (stepPreloadAttempt (initialPreloadAttempt iframe) .timeoutFires) cache = cache ∧
    preloadAttemptCacheEffect maxPreloadedDashboards d now
      (stepPreloadAttempt (stepPreloadAttempt (initialPreloadAttempt iframe) .timeoutFires)
        .loadFires) cache = cache ∧
    (stepPreloadAttempt (initialPreloadAttempt iframe) .timeoutFires).inContainer = true ∧
    (stepPreloadAttempt (initialPreloadAttempt iframe) .timeoutFires).listenersAttached
      = true := by
  refine ⟨rfl, rfl, rfl, rfl, rfl, rfl⟩

lemma findOldest_fold (l : List PreloadedDashboard) :
    ∀ acc : String × Nat,
      (l.foldl
          (fun (acc : String × Nat) e =>
            if e.lastUsed < acc.2 then (e.id, e.lastUsed) else acc) acc = acc
        ∧ ∀ e ∈ l, acc.2 ≤ e.lastUsed) ∨
      ∃ m ∈ l,
        l.foldl
          (fun (acc : String × Nat) e =>
            if e.lastUsed < acc.2 then (e.id, e.lastUsed) else acc) acc
          = (m.id, m.lastUsed)
        ∧ (∀ e ∈ l, m.lastUsed ≤ e.lastUsed) ∧ m.lastUsed < acc.2 := by
  induction l with
  | nil => intro acc; exact Or.inl ⟨rfl, by simp⟩
  | cons x xs ih =>
    intro acc
    by_cases hx : x.lastUsed < acc.2
    · rcases ih (x.id, x.lastUsed) with ⟨heq, hall⟩ | ⟨m, hm, heq, hall, hlt⟩
      · refine Or.inr ⟨x, List.mem_cons_self x xs, ?_, ?_, hx⟩
        · simp only [List.foldl_cons, if_pos hx]
          exact heq
        · intro e he
          rcases List.mem_cons.mp he with rfl | he'
          · exact le_refl _
          · exact hall e he'
      · refine Or.inr ⟨m, List.mem_cons_of_mem x hm, ?_, ?_, lt_trans hlt hx⟩
        · simp only [List.foldl_cons, if_pos hx]
          exact heq
        · intro e he
          rcases List.mem_cons.mp he with rfl | he'
          · exact le_of_lt hlt
          · exact hall e he'
    · rcases ih acc with ⟨heq, hall⟩ | ⟨m, hm, heq, hall, hlt⟩
      · refine Or.inl ⟨?_, ?_⟩
        · simp only [List.foldl_cons, if_neg hx]
          exact heq
        · intro e he
          rcases List.mem_cons.mp he with rfl | he'
          · omega
          · exact hall e he'
      · refine Or.inr ⟨m, List.mem_cons_of_mem x hm, ?_, ?_, hlt⟩
        · simp only [List.foldl_cons, if_neg hx]
          exact heq
        · intro e he
          rcases List.mem_cons.mp he with rfl | he'
          · omega
          · exact hall e he'

lemma preGet_append_none (l1 l2 : List PreloadedDashboard) (i : String)
    (h : preGet l1 i = none) : preGet (l1 ++ l2) i = preGet l2 i := by
  induction l1 with
  | nil => simp [preGet]
  | cons x xs ih =>
    simp only [preGet, List.find?] at h ⊢
    rcases hx : (x.id == i) with _ | _
    · rw [hx] at h
      simp only at h ⊢
      exact ih h
    · rw [hx] at h
      simp at h

lemma preSet_append_of_absent (l : List PreloadedDashboard) (c : PreloadedDashboard)
    (h : preGet l c.id = none) : preSet l c = l ++ [c] := by
  induction l with
  | nil => rfl
  | cons x xs ih =>
    simp only [preGet, List.find?] at h
    rcases hx : (x.id == c.id) with _ | _
    · rw [hx] at h
      simp only at h
      simp only [preSet, hx, Bool.false_eq_true, if_false, List.cons_append]
      rw [ih h]
    · rw [hx] at h
      simp at h

lemma preDelete_length_of_unique (cache : List PreloadedDashboard)
    (m : PreloadedDashboard) (hm : m ∈ cache)
    (hids : List.Pairwise (fun a b => a.id ≠ b.id) cache) :
    (preDelete cache m.id).length + 1 = cache.length := by
  induction cache with
  | nil => cases hm
  | cons x xs ih =>
    rcases List.mem_cons.mp hm with rfl | hmem
    · have hhead := (List.pairwise_cons.mp hids).1
      have hkeep : xs.filter (fun e => e.id != m.id) = xs := by
        apply List.filter_eq_self.mpr
        intro e he
        exact bne_iff_ne.mpr fun hEq => hhead e he hEq.symm
      have h0 : (m.id != m.id) = false := by simp
      simp only [preDelete, List.filter_cons, h0, Bool.false_eq_true, if_false, hkeep,
        List.length_cons]
    · have hx : (x.id != m.id) = true :=
        bne_iff_ne.mpr ((List.pairwise_cons.mp hids).1 m hmem)
      have htail := ih hmem (List.pairwise_cons.mp hids).2
      simp only [preDelete, List.filter_cons, hx, if_true, List.length_cons]
      simp only [preDelete] at htail
      omega

/-- C2 (counterexample): the eviction scan starts from `oldestTime =
Date.now()` and uses a strict comparison, so a full cache in which every
entry's `lastUsed` equals the current millisecond evicts nothing, and a
successful preload of a 4th distinct dashboard grows the cache to 4 >
`maxPreloadedDashboards = 3`. -/
theorem claim_C2_counterexample :
    (preloadSuccessInsert 3
      [⟨"a", 1, true, 100, 100⟩, ⟨"b", 2, true, 100, 100⟩, ⟨"c", 3, true, 100, 100⟩]
      ⟨"d", "D", "w"⟩ 4 100).length = 4 ∧ 3 < 4 := by
  decide

/-- C2 (amended): provided every cached entry's `lastUsed` is strictly
earlier than the insertion instant (and entries have pairwise distinct ids,
pairwise distinct `lastUsed` values, and nonempty ids), a successful preload
of a new distinct dashboard id into a cache holding exactly
`maxPreloadedDashboards` entries evicts exactly the entry with the smallest
`lastUsed`, inserts the new entry, keeps every other entry, and leaves the
cache size at `maxPreloadedDashboards`; if some entry's `lastUsed` ties with
the current instant the eviction can fail and the size bound is violated
(see the counterexample). -/
theorem claim_C2_preloader_capacity (maxPreloadedDashboards : Nat)
    (cache : List PreloadedDashboard) (d : Dashboard) (iframe now : Nat)
    (hsize : cache.length = maxPreloadedDashboards)
    (hpos : 0 < maxPreloadedDashboards)
    (hids : List.Pairwise (fun a b => a.id ≠ b.id) cache)
    (hfresh : preGet cache d.id = none)
    (hold : ∀ e ∈ cache, e.lastUsed < now)
    (hdistinct : List.Pairwise (fun a b => a.lastUsed ≠ b.lastUsed) cache)
    (hne : ∀ e ∈ cache, e.id ≠ "") :
    (preloadSuccessInsert maxPreloadedDashboards cache d iframe now).length
      = maxPreloadedDashboards ∧
    ∃ m ∈ cache,
      (∀ e ∈ cache, e ≠ m → m.lastUsed < e.lastUsed) ∧
      preGet (preloadSuccessInsert maxPreloadedDashboards cache d iframe now) m.id
        = none ∧
      preGet (preloadSuccessInsert maxPreloadedDashboards cache d iframe now) d.id
        = some { id := d.id, iframe := iframe, isLoaded := true,
                 loadTime := now, lastUsed := now } ∧
      ∀ e ∈ cache, e.id ≠ m.id →
        e ∈ preloadSuccessInsert maxPreloadedDashboards cache d iframe now := by
  have hfreshAll : ∀ e ∈ cache, (e.id == d.id) = false := by
    intro e he
    have := List.find?_eq_none.mp hfresh e he
    revert this
    cases e.id == d.id <;> simp
  rcases findOldest_fold cache ("", now) with ⟨heq, hall⟩ | ⟨m, hm, heq, hallm, hlt⟩
  · exfalso
    rcases hc : cache with _ | ⟨x, xs⟩
    · rw [hc] at hsize
      simp at hsize
      omega
    · rw [hc] at hall hold
      have h1 := hall x (List.mem_cons_self x xs)
      have h2 := hold x (List.mem_cons_self x xs)
      simp only at h1
      omega
  · have hfold : findOldestPreloaded cache now = (m.id, m.lastUsed) := heq
    have hstrict : ∀ e ∈ cache, e ≠ m → m.lastUsed < e.lastUsed := by
      intro e he hne'
      have hR : m.lastUsed ≠ e.lastUsed :=
        (List.Pairwise.forall (fun _ _ h => Ne.symm h) hdistinct) hm he
          (fun hEq => hne' (hEq ▸ rfl))
      exact lt_of_le_of_ne (hallm e he) hR
    have hmne : m.id ≠ "" := hne m hm
    have hmd : m.id ≠ d.id := by
      have h1 := hfreshAll m hm
      intro hEq
      rw [hEq] at h1
      simp at h1
    have hcap : maxPreloadedDashboards ≤ cache.length := le_of_eq hsize.symm
    have hdel_absent : preGet (preDelete cache m.id) d.id = none := by
      rw [preGet, List.find?_eq_none]
      intro e he
      have he' : e ∈ cache := (List.mem_filter.mp he).1
      have := hfreshAll e he'
      simp [this]
    have hresult : preloadSuccessInsert maxPreloadedDashboards cache d iframe now
        = preDelete cache m.id ++
          [{ id := d.id, iframe := iframe, isLoaded := true,
             loadTime := now, lastUsed := now }] := by
      rw [preloadSuccessInsert, hfold, if_pos hcap, if_pos hmne]
      exact preSet_append_of_absent _ _ hdel_absent
    have hdlen := preDelete_length_of_unique cache m hm hids
    constructor
    · rw [hresult, List.length_append]
      simp only [List.length_cons, List.length_nil]
      omega
    · refine ⟨m, hm, hstrict, ?_, ?_, ?_⟩
      · rw [hresult, preGet, List.find?_eq_none]
        intro e he
        rcases List.mem_append.mp he with hl | hr
        · have h2 : e.id ≠ m.id := bne_iff_ne.mp (List.mem_filter.mp hl).2
          simp [beq_iff_eq, h2]
        · have h3 := List.mem_singleton.mp hr
          subst h3
          simp only [beq_iff_eq]
          exact fun hEq => hmd hEq.symm
      · rw [hresult, preGet_append_none _ _ _ hdel_absent]
        simp [preGet, List.find?]
      · intro e he hne'
        rw [hresult]
        exact List.mem_append_left _ (List.mem_filter.mpr ⟨he, bne_iff_ne.mpr hne'⟩)

/-- Closed instance of `claim_C2_preloader_capacity`: a cache of 3 entries
with distinct timestamps, preloading a 4th distinct dashboard keeps the
size at 3. -/
theorem claim_C2_witness :
    (preloadSuccessInsert 3
      [⟨"a", 1, true, 10, 10⟩, ⟨"b", 2, true, 20, 20⟩, ⟨"c", 3, true, 30, 30⟩]
      ⟨"d", "D", "w"⟩ 4 100).length = 3 :=
  (claim_C2_preloader_capacity 3
    [⟨"a", 1, true, 10, 10⟩, ⟨"b", 2, true, 20, 20⟩, ⟨"c", 3, true, 30, 30⟩]
    ⟨"d", "D", "w"⟩ 4 100 (by decide) (by decide) (by decide) (by decide)
    (by decide) (by decide) (by decide)).1

end PBIViewer
